import Mathlib

/-!
Verification of the transaction-dashboard pipeline (src/dashboard.py):
tag normalization, keyword categorization, schema validation, filtering,
totals, daily expenditure series, and category corrections.

Strings are modelled as Lean `String`s; Python's `str.lower` is modelled
ASCII-wise by `Char.toLower` (the keyword table and the markers are ASCII).
Monetary amounts are modelled as rationals.
-/

/-- Python substring primitive: does `hay` start with `needle`? -/
def leadsWith : List Char → List Char → Bool
  | [], _ => true
  | _ :: _, [] => false
  | a :: as, b :: bs => a == b && leadsWith as bs

/-- Python's `needle in hay` substring test, on character lists. -/
def listContains : List Char → List Char → Bool
  | [], needle => needle.isEmpty
  | c :: rest, needle => leadsWith needle (c :: rest) || listContains rest needle

/-- Python's `needle in hay` substring test, on strings. -/
def strContains (hay needle : String) : Bool :=
  listContains hay.toList needle.toList

/-- Python `str.lower()` (ASCII case folding), as used on `details` in
`categorize_transaction` (dashboard.py line 54). -/
def lowerStr (s : String) : String :=
  String.mk (s.toList.map Char.toLower)

/-- Whitespace class of the regex `\s` (ASCII part), used by the tag cleaner. -/
def isWsChar (c : Char) : Bool :=
  c = ' ' || c = '\t' || c = '\n' || c = '\x0d' || c = '\x0b' || c = '\x0c'

/-- Scanner for `re.sub` with pattern `#\?\?\s*` and empty replacement
(dashboard.py line 37): left-to-right non-overlapping matches; after a
literal `#??` the following whitespace run is consumed greedily, which the
`skip` flag records one character at a time. -/
def stripAux : Bool → List Char → List Char
  | _, [] => []
  | _, '#' :: '?' :: '?' :: rest => stripAux true rest
  | skip, c :: rest => if skip && isWsChar c then stripAux true rest else c :: stripAux false rest

/-- Tag normalization of dashboard.py line 37: remove every occurrence of
the marker `#??` together with the whitespace following it. -/
def stripMarker (s : String) : String :=
  String.mk (stripAux false s.toList)

/-- The ordered category/keyword table of dashboard.py lines 40-51. -/
def categories_keywords : List (String × List String) :=
  [("Food and Dining",
    ["swiggy", "zomato", "ubereats", "heisetasse", "restaurant", "hotel", "food",
     "dining", "taco bell", "domi", "bakers", "coffee", "leons", "hang out",
     "third wave", "churrolto", "ushodaya", "tibbs", "koi", "ding dong", "cara cara"]),
   ("Groceries",
    ["grocery", "bigbasket", "grofers", "supermarket", "milk", "vegetables",
     "blinkit", "zepto", "kpn", "ushodaya"]),
   ("Transfers", ["money sent"]),
   ("Shopping",
    ["amazon", "flipkart", "myntra", "shopping", "clothing", "electronics",
     "diverse retails", "westside", "techmash"]),
   ("Travel & Stay", ["uber", "ola", "rapido", "hyderabad metro", "brevistay"]),
   ("Entertainment",
    ["netflix", "prime", "hotstar", "movie", "cinema", "subscription",
     "apple media", "spotify"]),
   ("Fuel", ["fuel", "petrol"]),
   ("Loan", ["Vatturi Paritosh"]),
   ("Investments/ Savings", ["icclgroww"]),
   ("Money Received", ["received from"])]

/-- The keyword scan of `categorize_transaction` (dashboard.py lines 55-58):
walk the table in declaration order and return the first category one of
whose keywords occurs in the lowercased details. -/
def matchCategory (detailsLower : String) : List (String × List String) → Option String
  | [] => none
  | (cat, kws) :: rest =>
    if kws.any (fun kw => strContains detailsLower kw) then some cat
    else matchCategory detailsLower rest

/-- `categorize_transaction` of dashboard.py lines 53-61. -/
def categorize_transaction (details tags : String) : String :=
  match matchCategory (lowerStr details) categories_keywords with
  | some cat => cat
  | none => if strContains tags "Money Received" then "Money Received" else "Other"

/-- The per-row pipeline applied at load time: the `Tags` field is
normalized (line 37) before `categorize_transaction` is applied to it
(line 64), so the fallback test sees the normalized tag string. -/
def rowCategorize (details rawTags : String) : String :=
  categorize_transaction details (stripMarker rawTags)

/-! ### Lemmas about the categorizer -/

theorem matchCategory_eq_find (dl : String) (tbl : List (String × List String)) :
    matchCategory dl tbl =
      (tbl.find? (fun p => p.2.any (fun kw => strContains dl kw))).map Prod.fst := by
  induction tbl with
  | nil => rfl
  | cons p rest ih =>
    obtain ⟨cat, kws⟩ := p
    by_cases h : kws.any (fun kw => strContains dl kw) = true
    · rw [@List.find?_cons_of_pos _ (fun p => p.2.any (fun kw => strContains dl kw)) (cat, kws) rest h]
      simp [matchCategory, h]
    · rw [@List.find?_cons_of_neg _ (fun p => p.2.any (fun kw => strContains dl kw)) (cat, kws) rest h]
      simp only [matchCategory]
      rw [if_neg h]
      exact ih

theorem matchCategory_eq_some (dl : String) (tbl : List (String × List String))
    (c : String) (h : matchCategory dl tbl = some c) :
    ∃ kws, (c, kws) ∈ tbl ∧ kws.any (fun kw => strContains dl kw) = true := by
  induction tbl with
  | nil => exact absurd h (by simp [matchCategory])
  | cons p rest ih =>
    obtain ⟨cat, kws⟩ := p
    by_cases hp : kws.any (fun kw => strContains dl kw) = true
    · refine ⟨kws, ?_, hp⟩
      simp only [matchCategory, if_pos hp, Option.some.injEq] at h
      subst h
      exact List.mem_cons_self _ _
    · simp only [matchCategory, if_neg hp] at h
      obtain ⟨kws', hmem, hany⟩ := ih h
      exact ⟨kws', List.mem_cons_of_mem _ hmem, hany⟩

theorem leadsWith_subset (needle hay : List Char) (h : leadsWith needle hay = true) :
    ∀ c ∈ needle, c ∈ hay := by
  induction needle generalizing hay with
  | nil => intro c hc; exact absurd hc (List.not_mem_nil c)
  | cons a as ih =>
    match hay with
    | [] => exact absurd h (by simp [leadsWith])
    | b :: bs =>
      simp only [leadsWith, Bool.and_eq_true, beq_iff_eq] at h
      intro c hc
      rcases List.mem_cons.1 hc with hca | hcas
      · exact List.mem_cons.2 (Or.inl (hca.trans h.1))
      · exact List.mem_cons.2 (Or.inr (ih bs h.2 c hcas))

theorem listContains_subset (hay needle : List Char) (h : listContains hay needle = true) :
    ∀ c ∈ needle, c ∈ hay := by
  induction hay with
  | nil =>
    intro c hc
    simp only [listContains, List.isEmpty_iff] at h
    subst h
    exact absurd hc (List.not_mem_nil c)
  | cons b bs ih =>
    simp only [listContains, Bool.or_eq_true] at h
    rcases h with h | h
    · exact leadsWith_subset needle (b :: bs) h
    · intro c hc
      exact List.mem_cons.2 (Or.inr (ih h c hc))

theorem toLower_ne_V (c : Char) : Char.toLower c ≠ 'V' := by
  intro h
  unfold Char.toLower at h
  simp only [] at h
  split at h
  · rename_i hcond
    have hmem : c.toNat + 32 ∈ List.range' 97 26 := by
      rw [List.mem_range']
      exact ⟨c.toNat - 65, by omega, by omega⟩
    exact (by decide : ∀ m ∈ List.range' 97 26, Char.ofNat m ≠ 'V') _ hmem h
  · rename_i hcond
    subst h
    exact hcond (by decide)

theorem loan_keyword_never_matches (details : String) :
    strContains (lowerStr details) "Vatturi Paritosh" = false := by
  by_contra hne
  have h : strContains (lowerStr details) "Vatturi Paritosh" = true := by
    revert hne
    cases strContains (lowerStr details) "Vatturi Paritosh" <;> simp
  have hV : 'V' ∈ (lowerStr details).toList :=
    listContains_subset _ _ h 'V' (by decide)
  simp only [lowerStr] at hV
  have : (String.mk (details.toList.map Char.toLower)).toList
      = details.toList.map Char.toLower := rfl
  rw [this] at hV
  obtain ⟨c, _, hc⟩ := List.mem_map.1 hV
  exact toLower_ne_V c hc

/-! ### Claims about the categorizer -/

/-- Claim C1: categorization walks the table in declaration order (keywords
in declaration order) over the lowercased details and returns the first
category with a substring match; in particular any details containing
"ushodaya" (a keyword of both "Food and Dining" and "Groceries") resolve to
"Food and Dining", the earlier of the two categories. -/
theorem c1_first_match_wins (details tags : String) :
    (∀ p : String × List String,
        categories_keywords.find?
          (fun q => q.2.any (fun kw => strContains (lowerStr details) kw)) = some p →
        categorize_transaction details tags = p.1)
    ∧ (strContains (lowerStr details) "ushodaya" = true →
        categorize_transaction details tags = "Food and Dining") := by
  constructor
  · intro p hp
    unfold categorize_transaction
    rw [matchCategory_eq_find (lowerStr details) categories_keywords, hp]
    rfl
  · intro hu
    have hfind : matchCategory (lowerStr details) categories_keywords = some "Food and Dining" := by
      simp only [categories_keywords, matchCategory]
      rw [if_pos (List.any_eq_true.2 ⟨"ushodaya", by decide, hu⟩)]
    unfold categorize_transaction
    rw [hfind]

/-- Witness for C1 at concrete input "Ushodaya Mart". -/
theorem c1_first_match_wins_witness :
    strContains (lowerStr "Ushodaya Mart") "ushodaya" = true
    ∧ categorize_transaction "Ushodaya Mart" "" = "Food and Dining" :=
  ⟨by decide, (c1_first_match_wins "Ushodaya Mart" "").2 (by decide)⟩

/-- Claim C2 counterexample: the fallback inspects the NORMALIZED tag
string, not the as-uploaded one. For details matching no keyword and raw
tags "Money #??Received", the pipeline returns "Money Received" although
the literal "Money Received" does not occur in the raw tag string. -/
theorem c2_counterexample :
    matchCategory (lowerStr "") categories_keywords = none
    ∧ rowCategorize "" "Money #??Received" = "Money Received"
    ∧ strContains "Money #??Received" "Money Received" = false := by
  refine ⟨by decide, by decide, by decide⟩

/-- Claim C2 (amended): for rows on which no category keyword matches the
lowercased details, the pipeline returns "Money Received" exactly when the
literal "Money Received" occurs in the NORMALIZED tag string, and "Other"
otherwise. -/
theorem c2_fallback_normalized (details rawTags : String)
    (h : matchCategory (lowerStr details) categories_keywords = none) :
    (rowCategorize details rawTags = "Money Received"
      ↔ strContains (stripMarker rawTags) "Money Received" = true)
    ∧ (strContains (stripMarker rawTags) "Money Received" = false →
        rowCategorize details rawTags = "Other") := by
  have hrow : rowCategorize details rawTags =
      if strContains (stripMarker rawTags) "Money Received" then "Money Received" else "Other" := by
    unfold rowCategorize categorize_transaction
    rw [h]
  rw [hrow]
  by_cases hc : strContains (stripMarker rawTags) "Money Received" = true
  · rw [if_pos hc]
    exact ⟨⟨fun _ => hc, fun _ => rfl⟩, fun hf => absurd hc (by rw [hf]; decide)⟩
  · rw [if_neg hc]
    constructor
    · constructor
      · intro habs
        exact absurd habs (by decide)
      · intro ht
        exact absurd ht hc
    · intro _
      rfl

/-- Witness for C2 (amended) at concrete input. -/
theorem c2_fallback_normalized_witness :
    matchCategory (lowerStr "") categories_keywords = none
    ∧ ((rowCategorize "" "Money Received" = "Money Received"
        ↔ strContains (stripMarker "Money Received") "Money Received" = true)
      ∧ (strContains (stripMarker "Money Received") "Money Received" = false →
          rowCategorize "" "Money Received" = "Other")) :=
  ⟨by decide, c2_fallback_normalized "" "Money Received" (by decide)⟩

/-- Claim C9: the "Loan" category is unreachable: its only keyword
"Vatturi Paritosh" contains uppercase letters while the details are
lowercased before the substring test, and the fallback only produces
"Money Received" or "Other". -/
theorem c9_loan_unreachable (details tags : String) :
    categorize_transaction details tags ≠ "Loan" := by
  cases hmc : matchCategory (lowerStr details) categories_keywords with
  | none =>
    have hct : categorize_transaction details tags =
        if strContains tags "Money Received" then "Money Received" else "Other" := by
      unfold categorize_transaction
      rw [hmc]
    rw [hct]
    by_cases hc : strContains tags "Money Received" = true
    · rw [if_pos hc]
      decide
    · rw [if_neg hc]
      decide
  | some c =>
    have hct : categorize_transaction details tags = c := by
      unfold categorize_transaction
      rw [hmc]
    rw [hct]
    intro heq
    subst heq
    obtain ⟨kws, hmem, hany⟩ := matchCategory_eq_some _ _ _ hmc
    have hkws : kws = ["Vatturi Paritosh"] := by
      simp [categories_keywords] at hmem
      exact hmem
    rw [hkws] at hany
    simp only [List.any_cons, List.any_nil, Bool.or_false] at hany
    rw [loan_keyword_never_matches details] at hany
    exact Bool.noConfusion hany

/-- Witness for C9 at a concrete input. -/
theorem c9_loan_unreachable_witness :
    categorize_transaction "Vatturi Paritosh" "" ≠ "Loan" :=
  c9_loan_unreachable "Vatturi Paritosh" ""

/-! ### Tag normalization: idempotence analysis -/

theorem stripAux_of_no_marker (l : List Char)
    (h : listContains l ['#', '?', '?'] = false) : stripAux false l = l := by
  induction l with
  | nil => rfl
  | cons c rest ih =>
    have h2 : leadsWith ['#', '?', '?'] (c :: rest) = false
        ∧ listContains rest ['#', '?', '?'] = false := by
      have h3 := h
      simp only [listContains, Bool.or_eq_false_iff] at h3
      exact h3
    have hpat : ∀ rest1 : List Char, c = '#' → rest = '?' :: '?' :: rest1 → False := by
      intro r1 hc hr
      subst hc
      subst hr
      simp [leadsWith] at h2
    rw [stripAux.eq_3 false c rest hpat]
    simp only [Bool.false_and, Bool.false_eq_true, if_false]
    rw [ih h2.2]

theorem stripMarker_of_no_marker (s : String) (h : strContains s "#??" = false) :
    stripMarker s = s := by
  unfold stripMarker
  have hl : listContains s.toList ['#', '?', '?'] = false := h
  rw [stripAux_of_no_marker s.toList hl]
  cases s
  rfl

/-- Claim C4 counterexample: normalization is NOT idempotent. Stripping the
marker can create a fresh occurrence of it: "##????" normalizes to "#??",
and a second pass strips that too. -/
theorem c4_counterexample :
    stripMarker "##????" = "#??"
    ∧ stripMarker (stripMarker "##????") = ""
    ∧ stripMarker (stripMarker "##????") ≠ stripMarker "##????" := by
  refine ⟨by decide, by decide, by decide⟩

/-- Claim C4 (amended): re-normalizing is a no-op whenever the first pass
left no occurrence of the marker "#??" (normalization is a no-op on every
marker-free string); unrestricted idempotence fails, see the
counterexample. -/
theorem c4_renormalize_noop (s : String)
    (h : strContains (stripMarker s) "#??" = false) :
    stripMarker (stripMarker s) = stripMarker s :=
  stripMarker_of_no_marker (stripMarker s) h

/-- Witness for C4 (amended) at a concrete input. -/
theorem c4_renormalize_noop_witness :
    strContains (stripMarker "abc#?? def") "#??" = false
    ∧ stripMarker (stripMarker "abc#?? def") = stripMarker "abc#?? def" :=
  ⟨by decide, c4_renormalize_noop "abc#?? def" (by decide)⟩

/-! ### Ledger loading and schema validation (dashboard.py lines 16-34) -/

/-- Terminal upload failures. A schema failure carries the list of column
names its message reports as missing (the message text itself is
presentation). -/
inductive LoadError where
  | schemaError : List String → LoadError
  | formatError : LoadError
deriving DecidableEq

/-- The columns checked by the `missing_cols` pass of dashboard.py line 30
(note: `Date` is NOT among them; it is handled separately at lines 21-25). -/
def requiredColumns : List String := ["Transaction Details", "Amount", "Tags"]

/-- The columns of dashboard.py line 31 that are absent from the upload. -/
def missingCols (cols : List String) : List String :=
  requiredColumns.filter (fun c => ! cols.contains c)

/-- Schema/format validation of dashboard.py lines 16-34. Accessing
`df['Date']` raises `KeyError` when the column is absent, which is reported
on its own (line 24) before the `missing_cols` check ever runs; a `Date`
column that fails `dd/mm/yyyy` parsing is reported as a format error
(line 27). Whether the date column parses is abstracted to the Boolean
`dateParseOk` (the claims do not depend on particular date strings). -/
def loadCheck (cols : List String) (dateParseOk : Bool) : Except LoadError Unit :=
  if cols.contains "Date" then
    if dateParseOk then
      if (missingCols cols).isEmpty then Except.ok ()
      else Except.error (LoadError.schemaError (missingCols cols))
    else Except.error LoadError.formatError
  else Except.error (LoadError.schemaError ["Date"])

/-- Claim C3 counterexample: an upload missing both `Date` and `Amount`
fails with the Date-only message of line 24; the error does not name
`Amount` even though that column is missing too. -/
theorem c3_counterexample :
    loadCheck ["Transaction Details", "Tags"] true
      = Except.error (LoadError.schemaError ["Date"])
    ∧ ¬ (["Transaction Details", "Tags"] : List String).contains "Amount" = true
    ∧ ("Amount" : String) ∉ (["Date"] : List String) := by
  refine ⟨rfl, by decide, by decide⟩

/-- Claim C3 (amended): when `Date` is absent the loader fails naming only
`Date`, regardless of other missing columns; when `Date` is present and
parses, the loader fails with a single schema error naming every missing
column among `Transaction Details`, `Amount`, `Tags`. -/
theorem c3_missing_columns (cols : List String) :
    (¬ cols.contains "Date" = true →
      ∀ b : Bool, loadCheck cols b = Except.error (LoadError.schemaError ["Date"]))
    ∧ (cols.contains "Date" = true → missingCols cols ≠ [] →
        loadCheck cols true = Except.error (LoadError.schemaError (missingCols cols))
        ∧ ∀ c ∈ requiredColumns, ¬ cols.contains c = true → c ∈ missingCols cols) := by
  constructor
  · intro hd b
    unfold loadCheck
    rw [if_neg hd]
  · intro hd hm
    constructor
    · unfold loadCheck
      rw [if_pos hd, if_pos rfl, if_neg]
      intro he
      exact hm (List.isEmpty_iff.1 he)
    · intro c hc hnc
      unfold missingCols
      rw [List.mem_filter]
      rw [Bool.not_eq_true] at hnc
      exact ⟨hc, by rw [hnc]; rfl⟩

/-- Witness for C3 (amended): `Date` present, everything else missing. -/
theorem c3_missing_columns_witness :
    (["Date"] : List String).contains "Date" = true
    ∧ missingCols ["Date"] ≠ []
    ∧ (loadCheck ["Date"] true = Except.error (LoadError.schemaError (missingCols ["Date"]))
        ∧ ∀ c ∈ requiredColumns, ¬ (["Date"] : List String).contains c = true →
            c ∈ missingCols ["Date"]) :=
  ⟨by decide, by decide, (c3_missing_columns ["Date"]).2 (by decide) (by decide)⟩

/-! ### Ledger rows, filter engine, totals, corrections -/

/-- One ledger row after loading: dates at calendar-day granularity
(modelled as day numbers), amounts as rationals. `category` is the derived
label of dashboard.py line 64. -/
structure Tx where
  date : Nat
  details : String
  amount : ℚ
  tags : String
  category : String
deriving DecidableEq, Repr

/-- Date-range predicate of dashboard.py line 92 (inclusive both ends). -/
def dateFilter (rows : List Tx) (s e : Nat) : List Tx :=
  rows.filter (fun r => decide (s ≤ r.date) && decide (r.date ≤ e))

/-- Category filter of dashboard.py lines 97-98: the `isin` restriction is
applied only when the selected list is non-empty (`if selected_categories:`);
an empty selection leaves the frame untouched. -/
def categoryFilter (rows : List Tx) (cats : List String) : List Tx :=
  if cats.isEmpty then rows else rows.filter (fun r => cats.contains r.category)

/-- Amount-range predicate of dashboard.py line 104 (inclusive both ends). -/
def amountFilter (rows : List Tx) (lo hi : ℚ) : List Tx :=
  rows.filter (fun r => decide (lo ≤ r.amount) && decide (r.amount ≤ hi))

/-- The full filter pipeline of dashboard.py lines 92-104. -/
def filterLedger (rows : List Tx) (s e : Nat) (cats : List String) (lo hi : ℚ) : List Tx :=
  amountFilter (categoryFilter (dateFilter rows s e) cats) lo hi

/-- `credits` of dashboard.py line 107: sum of the strictly positive amounts. -/
def credits (rows : List Tx) : ℚ :=
  ((rows.filter (fun r => decide (0 < r.amount))).map (fun r => r.amount)).sum

/-- `debits` of dashboard.py line 108: absolute value of the sum of the
strictly negative amounts. -/
def debits (rows : List Tx) : ℚ :=
  |((rows.filter (fun r => decide (r.amount < 0))).map (fun r => r.amount)).sum|

/-- `exp_df` of dashboard.py line 118: the debit rows of the filtered view. -/
def expRows (rows : List Tx) : List Tx :=
  rows.filter (fun r => decide (r.amount < 0))

/-- The derived `Abs Amount` column of dashboard.py line 119. -/
def absAmount (r : Tx) : ℚ := -r.amount

/-- `setCategory` models `st.session_state.df.loc[idx, 'Category'] = c`
(dashboard.py line 185): row identity is the stable load-time index. -/
def setCategory : List Tx → Nat → String → List Tx
  | [], _, _ => []
  | r :: rest, 0, cat => { r with category := cat } :: rest
  | r :: rest, n + 1, cat => r :: setCategory rest n cat

/-- One user correction, guarded as in dashboard.py line 184: only applied
when the new category differs from "Other". -/
def applyCorrection (rows : List Tx) (idx : Nat) (newCat : String) : List Tx :=
  if newCat ≠ "Other" then setCategory rows idx newCat else rows

/-- The Update-Categories loop of dashboard.py lines 183-185. -/
def applyBatch (rows : List Tx) (batch : List (Nat × String)) : List Tx :=
  batch.foldl (fun acc p => applyCorrection acc p.1 p.2) rows

/-- A sample debit row used by concrete counterexamples and witnesses. -/
def txFood : Tx :=
  { date := 1, details := "Swiggy order", amount := -200, tags := "", category := "Food and Dining" }

theorem applyCorrection_other (rows : List Tx) (idx : Nat) :
    applyCorrection rows idx "Other" = rows := by
  unfold applyCorrection
  simp

/-! ### Claim C5: empty category selection -/

/-- Claim C5 counterexample: with an empty selected-category set the
filtered view is NOT empty — the category restriction is skipped and a row
passing the date and amount predicates survives. -/
theorem c5_counterexample :
    filterLedger [txFood] 0 10 [] (-1000) 1000 = [txFood]
    ∧ ([txFood] : List Tx) ≠ [] := by
  refine ⟨by decide, by decide⟩

/-- Claim C5 (amended): an empty selected-category set selects ALL rows,
not none: filtering with the empty set coincides with filtering with every
category present in the ledger. -/
theorem c5_empty_selects_all (rows : List Tx) (s e : Nat) (lo hi : ℚ) :
    filterLedger rows s e [] lo hi
      = filterLedger rows s e (rows.map (fun r => r.category)) lo hi := by
  unfold filterLedger
  cases hrows : rows with
  | nil => rfl
  | cons r rest =>
    have hL : categoryFilter (dateFilter (r :: rest) s e) [] = dateFilter (r :: rest) s e := rfl
    have hR : categoryFilter (dateFilter (r :: rest) s e) ((r :: rest).map (fun r => r.category))
        = dateFilter (r :: rest) s e := by
      unfold categoryFilter
      rw [if_neg (by simp)]
      apply List.filter_eq_self.2
      intro x hx
      have hxr : x ∈ r :: rest := List.mem_filter.1 hx |>.1
      have hmem : x.category ∈ (r :: rest).map (fun r => r.category) :=
        List.mem_map.2 ⟨x, hxr, rfl⟩
      exact List.elem_eq_true_of_mem hmem
    rw [hL, hR]

/-! ### Claim C7: totals -/

theorem sum_nonpos_of_all_nonpos (l : List ℚ) (h : ∀ x ∈ l, x ≤ 0) : l.sum ≤ 0 := by
  revert h
  induction l with
  | nil =>
    intro _
    simp
  | cons a as ih =>
    intro h
    simp only [List.sum_cons]
    have ha := h a (List.mem_cons_self a as)
    have has := ih (fun x hx => h x (List.mem_cons_of_mem a hx))
    linarith

theorem sum_map_abs_of_all_nonpos (l : List ℚ) (h : ∀ x ∈ l, x ≤ 0) :
    (l.map (fun x => |x|)).sum = -l.sum := by
  revert h
  induction l with
  | nil =>
    intro _
    simp
  | cons a as ih =>
    intro h
    simp only [List.map_cons, List.sum_cons]
    rw [ih (fun x hx => h x (List.mem_cons_of_mem a hx)),
        abs_of_nonpos (h a (List.mem_cons_self a as)), neg_add]

/-- Claim C7: `credits` is the sum of the strictly positive amounts,
`debits` the sum of the absolute values of the strictly negative amounts
(the code's `abs`-of-sum agrees with the claimed sum-of-abs); both are
non-negative, and zero-amount rows contribute to neither total. -/
theorem c7_totals (rows : List Tx) :
    credits rows = ((rows.filter (fun r => decide (0 < r.amount))).map (fun r => r.amount)).sum
    ∧ debits rows = ((rows.filter (fun r => decide (r.amount < 0))).map (fun r => |r.amount|)).sum
    ∧ 0 ≤ credits rows
    ∧ 0 ≤ debits rows
    ∧ credits rows = credits (rows.filter (fun r => decide (r.amount ≠ 0)))
    ∧ debits rows = debits (rows.filter (fun r => decide (r.amount ≠ 0))) := by
  have hnegmem : ∀ x ∈ (rows.filter (fun r => decide (r.amount < 0))).map (fun r => r.amount), x ≤ 0 := by
    intro x hx
    obtain ⟨r, hr, hxr⟩ := List.mem_map.1 hx
    have hlt : r.amount < 0 := of_decide_eq_true (List.mem_filter.1 hr).2
    rw [← hxr]
    exact le_of_lt hlt
  have hdeb : debits rows
      = ((rows.filter (fun r => decide (r.amount < 0))).map (fun r => |r.amount|)).sum := by
    unfold debits
    have hmm : (rows.filter (fun r => decide (r.amount < 0))).map (fun r => |r.amount|)
        = ((rows.filter (fun r => decide (r.amount < 0))).map (fun r => r.amount)).map (fun x => |x|) := by
      rw [List.map_map]
      rfl
    rw [hmm, sum_map_abs_of_all_nonpos _ hnegmem,
        abs_of_nonpos (sum_nonpos_of_all_nonpos _ hnegmem)]
  have hposfilter : rows.filter (fun r => decide (0 < r.amount))
      = (rows.filter (fun r => decide (r.amount ≠ 0))).filter (fun r => decide (0 < r.amount)) := by
    rw [List.filter_filter]
    apply List.filter_congr
    intro x _
    by_cases h : 0 < x.amount
    · simp [h, ne_of_gt h]
    · simp [h]
  have hnegfilter : rows.filter (fun r => decide (r.amount < 0))
      = (rows.filter (fun r => decide (r.amount ≠ 0))).filter (fun r => decide (r.amount < 0)) := by
    rw [List.filter_filter]
    apply List.filter_congr
    intro x _
    by_cases h : x.amount < 0
    · simp [h, ne_of_lt h]
    · simp [h]
  refine ⟨rfl, hdeb, ?_, ?_, ?_, ?_⟩
  · apply List.sum_nonneg
    intro x hx
    obtain ⟨r, hr, hxr⟩ := List.mem_map.1 hx
    have hgt : 0 < r.amount := of_decide_eq_true (List.mem_filter.1 hr).2
    rw [← hxr]
    exact le_of_lt hgt
  · exact abs_nonneg _
  · unfold credits
    rw [hposfilter]
  · unfold debits
    rw [hnegfilter]

/-! ### Claim C8: corrections to "Other" are ignored -/

/-- Claim C8: a correction whose new category is "Other" is silently
ignored: applied alone it returns the ledger unchanged, and dropping it
from any correction batch does not change the batch's effect. -/
theorem c8_other_correction_noop :
    (∀ (rows : List Tx) (idx : Nat), applyCorrection rows idx "Other" = rows)
    ∧ (∀ (rows : List Tx) (batch1 batch2 : List (Nat × String)) (idx : Nat),
        applyBatch rows (batch1 ++ (idx, "Other") :: batch2)
          = applyBatch rows (batch1 ++ batch2)) := by
  refine ⟨applyCorrection_other, ?_⟩
  intro rows batch1 batch2 idx
  unfold applyBatch
  rw [List.foldl_append, List.foldl_append, List.foldl_cons]
  simp only [applyCorrection_other]

/-! ### Claim C10: daily expenditure series -/

/-- Earliest debit date of the view (0 when there are no debits). -/
def firstDay (rows : List Tx) : Nat :=
  (((expRows rows).map (fun r => r.date)).min?).getD 0

/-- Latest debit date of the view (0 when there are no debits). -/
def lastDay (rows : List Tx) : Nat :=
  (((expRows rows).map (fun r => r.date)).max?).getD 0

/-- Total `Abs Amount` of the debit rows on day `d`. -/
def dayTotal (rows : List Tx) (d : Nat) : ℚ :=
  (((expRows rows).filter (fun r => decide (r.date = d))).map absAmount).sum

/-- `daily_sum` of dashboard.py line 147:
`exp_df.resample('D', on='Date')['Abs Amount'].sum()`. Resampling at daily
frequency produces one bin per calendar day from the earliest to the latest
date present in `exp_df`, in ascending order, an empty bin summing to 0. -/
def daily_sum (rows : List Tx) : List (Nat × ℚ) :=
  if (expRows rows).isEmpty then []
  else
    (List.range (lastDay rows - firstDay rows + 1)).map
      (fun i => (firstDay rows + i, dayTotal rows (firstDay rows + i)))

/-- The property claimed of the daily series: dates strictly ascending
(hence each day listed at most once), the listed days are exactly the span
from the earliest to the latest debit date inclusive, and a day in the span
with no debit row appears with sum 0. -/
def dailySeriesComplete (rows : List Tx) : Prop :=
  ((daily_sum rows).map Prod.fst).Sorted (· < ·)
  ∧ (∀ d : Nat, d ∈ (daily_sum rows).map Prod.fst ↔ firstDay rows ≤ d ∧ d ≤ lastDay rows)
  ∧ (∃ r ∈ expRows rows, r.date = firstDay rows)
  ∧ (∀ r ∈ expRows rows, firstDay rows ≤ r.date)
  ∧ (∃ r ∈ expRows rows, r.date = lastDay rows)
  ∧ (∀ r ∈ expRows rows, r.date ≤ lastDay rows)
  ∧ (∀ p ∈ daily_sum rows, (∀ r ∈ expRows rows, r.date ≠ p.1) → p.2 = 0)
  ∧ (∀ d : Nat, ((daily_sum rows).map Prod.fst).count d ≤ 1)

/-- Claim C10: for every view with at least one debit row, the daily
expenditure series has exactly one entry per calendar day from the earliest
to the latest debit date inclusive, in ascending order, with debit-free
days carried as 0. -/
theorem c10_daily_series (rows : List Tx) (h : expRows rows ≠ []) :
    dailySeriesComplete rows := by
  have hne : ((expRows rows).map (fun r => r.date)) ≠ [] := by
    intro habs
    exact h (List.map_eq_nil_iff.1 habs)
  obtain ⟨m, hm⟩ : ∃ m, ((expRows rows).map (fun r => r.date)).min? = some m := by
    cases hmin : ((expRows rows).map (fun r => r.date)).min? with
    | none => exact absurd (List.min?_eq_none_iff.1 hmin) hne
    | some m => exact ⟨m, rfl⟩
  obtain ⟨M, hM⟩ : ∃ M, ((expRows rows).map (fun r => r.date)).max? = some M := by
    cases hmax : ((expRows rows).map (fun r => r.date)).max? with
    | none => exact absurd (List.max?_eq_none_iff.1 hmax) hne
    | some M => exact ⟨M, rfl⟩
  have hmProps := (List.min?_eq_some_iff (fun a => Nat.le_refl a)
    (fun a b => min_choice a b) (fun a b c => le_min_iff)).1 hm
  have hMProps := (List.max?_eq_some_iff (fun a => Nat.le_refl a)
    (fun a b => max_choice a b) (fun a b c => max_le_iff)).1 hM
  have hfirst : firstDay rows = m := by
    unfold firstDay
    rw [hm]
    rfl
  have hlast : lastDay rows = M := by
    unfold lastDay
    rw [hM]
    rfl
  have hmem_first : ∃ r ∈ expRows rows, r.date = firstDay rows := by
    rw [hfirst]
    obtain ⟨r, hr, hrm⟩ := List.mem_map.1 hmProps.1
    exact ⟨r, hr, hrm⟩
  have hlb : ∀ r ∈ expRows rows, firstDay rows ≤ r.date := by
    rw [hfirst]
    intro r hr
    exact hmProps.2 _ (List.mem_map_of_mem _ hr)
  have hmem_last : ∃ r ∈ expRows rows, r.date = lastDay rows := by
    rw [hlast]
    obtain ⟨r, hr, hrM⟩ := List.mem_map.1 hMProps.1
    exact ⟨r, hr, hrM⟩
  have hub : ∀ r ∈ expRows rows, r.date ≤ lastDay rows := by
    rw [hlast]
    intro r hr
    exact hMProps.2 _ (List.mem_map_of_mem _ hr)
  have hfM : firstDay rows ≤ lastDay rows := by
    rw [hfirst, hlast]
    exact hmProps.2 M hMProps.1
  have hds : daily_sum rows = (List.range (lastDay rows - firstDay rows + 1)).map
      (fun i => (firstDay rows + i, dayTotal rows (firstDay rows + i))) := by
    unfold daily_sum
    rw [if_neg]
    intro habs
    exact h (List.isEmpty_iff.1 habs)
  have hfst : (daily_sum rows).map Prod.fst = (List.range (lastDay rows - firstDay rows + 1)).map
      (fun i => firstDay rows + i) := by
    rw [hds, List.map_map]
    rfl
  have hsorted : ((daily_sum rows).map Prod.fst).Sorted (· < ·) := by
    rw [hfst]
    exact List.Pairwise.map _ (fun a b hab => Nat.add_lt_add_left hab _) (List.sorted_lt_range _)
  refine ⟨hsorted, ?_, hmem_first, hlb, hmem_last, hub, ?_, ?_⟩
  · intro d
    rw [hfst]
    constructor
    · intro hd
      obtain ⟨i, hi, hdi⟩ := List.mem_map.1 hd
      rw [List.mem_range] at hi
      omega
    · intro hd
      exact List.mem_map.2 ⟨d - firstDay rows, List.mem_range.2 (by omega), by omega⟩
  · intro p hp hnone
    rw [hds] at hp
    obtain ⟨i, _, hpi⟩ := List.mem_map.1 hp
    have hp2 : p.2 = dayTotal rows p.1 := by
      rw [← hpi]
    rw [hp2]
    unfold dayTotal
    have hfil : (expRows rows).filter (fun r => decide (r.date = p.1)) = [] := by
      apply List.filter_eq_nil_iff.2
      intro r hr
      simp only [decide_eq_true_eq]
      exact hnone r hr
    rw [hfil]
    simp
  · intro d
    exact List.nodup_iff_count_le_one.1 hsorted.nodup d

/-- Sample debit rows on days 0 and 2, leaving day 1 debit-free. -/
def txGapA : Tx :=
  { date := 0, details := "a", amount := -100, tags := "", category := "Other" }

/-- Second sample debit row for the daily-series witness. -/
def txGapB : Tx :=
  { date := 2, details := "b", amount := -50, tags := "", category := "Other" }

/-- Witness for C10 on a two-debit view with a gap day. -/
theorem c10_daily_series_witness :
    expRows [txGapA, txGapB] ≠ [] ∧ dailySeriesComplete [txGapA, txGapB] :=
  ⟨by decide, c10_daily_series [txGapA, txGapB] (by decide)⟩
